import Mathlib

/-!
Shallow embedding of the resource engine of `solid-alien-signals`
(`createResource` and its helpers), translated from the TypeScript source.

JavaScript values that can be thrown, rejected, or passed as the
`refetching` info are modelled by the inductive `JSVal`; the JS value
`undefined` is `JSVal.undef` (and, where a cell can hold "a value or
undefined", by `Option`).  The engine's three reactive cells (`data`,
`error`, `state`) and its three pieces of private state
(`currentPromise`, `resolved`, `scheduled`) form the record `Engine`.
A batched update is modelled as a single simultaneous record update,
matching the atomicity the batch provides to observers.

The asynchronous parts (promise settlement, the microtask that clears
the `scheduled` flag) are modelled by an event machine over `World`:
`load` reports which continuations it attaches to the returned promise
and whether it queued a microtask; `stepW` runs load calls, `mutate`
calls, promise settlements and microtask boundaries in arbitrary
interleavings.
-/

namespace Resource

/-- JavaScript runtime values, as far as the engine inspects them:
`errObj m c` is an `Error` instance with message `m` and `cause` `c`
(a JS error without an explicit cause reads `undefined` from `.cause`,
so `c = .undef` models the absent cause); `rec t` is a plain record or
other non-Error object, tagged to keep distinct identities. -/
inductive JSVal where
  | undef
  | null
  | jsBool (b : Bool)
  | num (n : Int)
  | str (s : String)
  | errObj (message : String) (cause : JSVal)
  | plainObj (tag : Nat)
deriving DecidableEq, Repr

/-- JS truthiness of a `JSVal`, as tested by `if (err && ...)`. -/
def JSVal.truthy : JSVal → Bool
  | .undef => false
  | .null => false
  | .jsBool b => b
  | .num n => n != 0
  | .str s => s != ""
  | .errObj _ _ => true
  | .plainObj _ => true

/-- Is this value an `Error` instance (`err instanceof Error`)? -/
def JSVal.isErr : JSVal → Bool
  | .undef => false
  | .null => false
  | .jsBool _ => false
  | .num _ => false
  | .str _ => false
  | .errObj _ _ => true
  | .plainObj _ => false

/-- Is this value a string (`typeof err === 'string'`)? -/
def JSVal.isStr : JSVal → Bool
  | .undef => false
  | .null => false
  | .jsBool _ => false
  | .num _ => false
  | .str _ => true
  | .errObj _ _ => false
  | .plainObj _ => false

/-- `castError` from the source: an `Error` passes through unchanged;
a string becomes the message of a fresh error; any other value becomes
an error with the literal message "Unknown error"; in both wrapping
cases the original value is recorded as the `cause`. -/
def castError (err : JSVal) : JSVal :=
  match err with
  | .errObj m c => .errObj m c
  | .str s => .errObj s (.str s)
  | v => .errObj ("Unknown error") v

/-- The five values of the `state` cell. -/
inductive RState where
  | unresolved
  | pending
  | ready
  | refreshing
  | errored
deriving DecidableEq, Repr

/-- The cells and private variables of one resource: the `data`, `error`
and `state` cells, the `currentPromise` in-flight handle (promises are
identified by `Nat` tokens), the ever-`resolved` flag and the
`scheduled` dedup flag. -/
structure Engine (S T : Type) where
  data : Option T
  error : Option JSVal
  state : RState
  currentPromise : Option Nat
  resolved : Bool
  scheduled : Bool
deriving DecidableEq, Repr

/-- The engine as built by `createResource` before its initial load:
`data` seeded from `options.initialValue`, `state` is `ready` iff an
initial value was given (else `unresolved`), `resolved` likewise, no
error, no in-flight promise, not scheduled. -/
def initEngine {S T : Type} (initialValue : Option T) : Engine S T :=
  { data := initialValue
    error := none
    state := if initialValue.isSome then RState.ready else RState.unresolved
    currentPromise := none
    resolved := initialValue.isSome
    scheduled := false }

/-- `completeLoad(v, err)` from the source, with the batch modelled as
one simultaneous update: if `err` is undefined write `v` into the data
cell; set the state cell to `errored` when an error is present, else
`ready` when `resolved`, else `unresolved`; write `err` into the error
cell. -/
def completeLoad {S T : Type} (st : Engine S T) (v : Option T) (err : Option JSVal) :
    Engine S T :=
  { st with
    data := if err = none then v else st.data
    state := if err ≠ none then RState.errored
             else if st.resolved then RState.ready else RState.unresolved
    error := err }

/-- `loadEnd(p, v, err, key)` from the source: if `p` is still the
tracked `currentPromise`, clear the handle, set `resolved` when the key
is not undefined, and finalize through `completeLoad`; otherwise change
nothing.  Returns `v` in either case (this is the value the promise
chain built on the fetch fulfills with). -/
def loadEnd {S T : Type} (st : Engine S T) (p : Option Nat) (v : Option T)
    (err : Option JSVal) (key : Option S) : Engine S T × Option T :=
  if st.currentPromise = p then
    let st1 := { st with currentPromise := none }
    let st2 := if key.isSome then { st1 with resolved := true } else st1
    (completeLoad st2 v err, v)
  else
    (st, v)

/-- `read()` from the source, the callable resource itself: throw the
error when one is present and the state is exactly `errored`, otherwise
return the data cell. -/
def read {S T : Type} (st : Engine S T) : Except JSVal (Option T) :=
  match st.error with
  | some e => if st.state = RState.errored then Except.error e else Except.ok st.data
  | none => Except.ok st.data

/-- The `latest` getter from the source: before the first resolution it
defers to `read`; afterwards it throws the error only when the error is
truthy and no fetch is in flight, else returns the data cell. -/
def latest {S T : Type} (st : Engine S T) : Except JSVal (Option T) :=
  if st.resolved then
    match st.error with
    | some e =>
        if e.truthy && st.currentPromise.isNone then Except.error e
        else Except.ok st.data
    | none => Except.ok st.data
  else
    read st

/-- The `loading` getter from the source: state is `pending` or
`refreshing`. -/
def loading {S T : Type} (st : Engine S T) : Bool :=
  st.state = RState.pending || st.state = RState.refreshing

/-- `mutate` from the source: the data cell's writer, which stores the
value and returns it; no other cell or private variable is touched. -/
def mutate {S T : Type} (st : Engine S T) (v : Option T) : Engine S T × Option T :=
  ({ st with data := v }, v)

/-- What the fetcher does when invoked: return a value synchronously
(possibly undefined), throw synchronously, or return a pending promise
identified by a token. -/
inductive FetchResult (T : Type) where
  | sync (v : Option T)
  | thrown (e : JSVal)
  | async (p : Nat)
deriving DecidableEq, Repr

/-- The value `load` returns to its caller: `undefined`, a synchronous
value, or the promise built on the fetch. -/
inductive LoadRet (T : Type) where
  | undef
  | val (v : Option T)
  | prom (p : Nat)
deriving DecidableEq, Repr

/-- Everything one call to `load` does: the new engine, the returned
value, the `(key, value, refetching)` info record handed to the fetcher
(`none` when the fetcher was not invoked), the continuation attached to
a returned promise (`(p, key)`), and whether a microtask clearing the
`scheduled` flag was queued. -/
structure LoadResult (S T : Type) where
  eng : Engine S T
  ret : LoadRet T
  fInfo : Option (S × Option T × JSVal)
  attach : Option (Nat × S)
  micro : Bool
deriving DecidableEq, Repr

/-- `load(refetching)` from the source.  `lookup` is the source's
resolved key for this call (`none` for `null`/`undefined`/`false`) and
`fres` is what the fetcher does if invoked.  Steps: the dedup guard;
clearing `scheduled`; the falsy-source no-op completion; the
synchronous value / synchronous throw / pending promise paths.  A
synchronously thrown `undefined` leaves `fetchError` undefined in the
source and is hence treated as a synchronous result of `undefined`. -/
def load {S T : Type} (st : Engine S T) (refetching : JSVal) (lookup : Option S)
    (fres : FetchResult T) : LoadResult S T :=
  if refetching ≠ JSVal.jsBool false ∧ st.scheduled = true then
    { eng := st, ret := LoadRet.undef, fInfo := none, attach := none, micro := false }
  else
    let st1 := { st with scheduled := false }
    match lookup with
    | none =>
        { eng := (loadEnd st1 st1.currentPromise st1.data none none).1
          ret := LoadRet.undef, fInfo := none, attach := none, micro := false }
    | some k =>
        let info : S × Option T × JSVal := (k, st1.data, refetching)
        match fres with
        | FetchResult.thrown e =>
            if e = JSVal.undef then
              { eng := (loadEnd st1 st1.currentPromise none none (some k)).1
                ret := LoadRet.val none, fInfo := some info, attach := none, micro := false }
            else
              { eng := (loadEnd st1 st1.currentPromise none (some (castError e)) (some k)).1
                ret := LoadRet.undef, fInfo := some info, attach := none, micro := false }
        | FetchResult.sync v =>
            { eng := (loadEnd st1 st1.currentPromise v none (some k)).1
              ret := LoadRet.val v, fInfo := some info, attach := none, micro := false }
        | FetchResult.async p =>
            { eng := { st1 with
                         currentPromise := some p
                         scheduled := true
                         state := if st1.resolved then RState.refreshing else RState.pending
                         error := none }
              ret := LoadRet.prom p, fInfo := some info, attach := some (p, k), micro := true }

/-- The default applied to `load`'s parameter (`refetching = true`):
a JS default parameter substitutes only for `undefined`. -/
def jsDefault (info : JSVal) : JSVal :=
  if info = JSVal.undef then JSVal.jsBool true else info

/-- `refetch(info)` from the source: `(info) => load(info)`, the
default parameter filling in `true` for an undefined `info`. -/
def refetch {S T : Type} (st : Engine S T) (info : JSVal) (lookup : Option S)
    (fres : FetchResult T) : LoadResult S T :=
  load st (jsDefault info) lookup fres

/-- JS nullish coalescing `a ?? b`: substitutes for `undefined` and
for `null`. -/
def jsCoalesce (a b : JSVal) : JSVal :=
  if a = JSVal.undef ∨ a = JSVal.null then b else a

/-- The meaningful string form of a JS value, as the spec's words use
it: strings, numbers, booleans, `null` and `undefined` stringify
meaningfully; a plain record does not. -/
def jsStringForm : JSVal → Option String
  | .str s => some s
  | .num n => some (toString n)
  | .jsBool b => some (if b then "true" else "false")
  | .null => some ("null")
  | .undef => some ("undefined")
  | .errObj _ _ => none
  | .plainObj _ => none

/-- The error normalization exactly as the claim states it (for
comparison with `castError` from the source): an error object is kept;
any other value is wrapped into an error whose message is the string
form of the value, or "Unknown error" when it cannot be stringified
meaningfully, with the original value as cause. -/
def claimedCastError (err : JSVal) : JSVal :=
  match err with
  | .errObj m c => .errObj m c
  | v => .errObj (Option.getD (jsStringForm v) ("Unknown error")) v

/-- Settlement of the fetch promise `p` started with key `k`: the
source attaches `value => loadEnd(result, value, undefined, lookup)`
and `err => loadEnd(result, undefined, castError(err), lookup)`.  The
second component is the value the promise returned by `load` fulfills
with (the continuations return normally, so that promise never
rejects). -/
def settle {S T : Type} (st : Engine S T) (p : Nat) (k : S)
    (outcome : Except JSVal (Option T)) : Engine S T × Option T :=
  match outcome with
  | Except.ok v => loadEnd st (some p) v none (some k)
  | Except.error e => loadEnd st (some p) none (some (castError e)) (some k)

/-- The world around one resource: the engine, whether a
`scheduled`-clearing microtask is queued, and the continuations
attached to still-pending fetch promises. -/
structure World (S T : Type) where
  eng : Engine S T
  micro : Bool
  pend : List (Nat × S)
deriving DecidableEq, Repr

/-- The events that drive a resource: a call to `load` (from `refetch`,
the constructor, or the source effect), a `mutate` call, settlement of
a pending fetch promise, and a microtask boundary. -/
inductive Event (S T : Type) where
  | loadCall (refetching : JSVal) (lookup : Option S) (fres : FetchResult T)
  | mutateCall (v : Option T)
  | settleCall (p : Nat) (k : S) (outcome : Except JSVal (Option T))
  | tick

/-- One step of the world: run the event against the engine, record
newly attached continuations and queued microtasks; a settlement fires
only if its continuation is actually pending; a microtask boundary runs
the queued clearing task (if any), setting `scheduled` to false. -/
def stepW {S T : Type} [DecidableEq S] [DecidableEq T] (w : World S T) (e : Event S T) :
    World S T :=
  match e with
  | Event.loadCall r l f =>
      let res := load w.eng r l f
      { eng := res.eng
        micro := w.micro || res.micro
        pend := match res.attach with
                | some a => w.pend ++ [a]
                | none => w.pend }
  | Event.mutateCall v => { w with eng := (mutate w.eng v).1 }
  | Event.settleCall p k outcome =>
      if (p, k) ∈ w.pend then
        { w with eng := (settle w.eng p k outcome).1, pend := w.pend.erase (p, k) }
      else w
  | Event.tick =>
      { eng := if w.micro then { w.eng with scheduled := false } else w.eng
        micro := false
        pend := w.pend }

/-- The worlds a resource can reach: a fresh engine (any initial
value), closed under arbitrary events. -/
inductive Reachable {S T : Type} [DecidableEq S] [DecidableEq T] : World S T → Prop where
  | init (iv : Option T) : Reachable { eng := initEngine iv, micro := false, pend := [] }
  | step {w : World S T} (e : Event S T) : Reachable w → Reachable (stepW w e)

/-- A sequence of `mutate` calls applied in order. -/
def mutateSeq {S T : Type} (st : Engine S T) (vs : List (Option T)) : Engine S T :=
  vs.foldl (fun s x => (mutate s x).1) st

end Resource

namespace Resource

/-! Helper lemmas about `loadEnd`, `completeLoad` and `mutateSeq`. -/

lemma loadEnd_snd {S T : Type} (st : Engine S T) (p : Option Nat) (v : Option T)
    (err : Option JSVal) (key : Option S) : (loadEnd st p v err key).2 = v := by
  unfold loadEnd
  split <;> rfl

lemma loadEnd_stale {S T : Type} (st : Engine S T) {p : Option Nat} (v : Option T)
    (err : Option JSVal) (key : Option S) (h : st.currentPromise ≠ p) :
    loadEnd st p v err key = (st, v) := by
  unfold loadEnd
  simp [h]

lemma loadEnd_apply {S T : Type} (st : Engine S T) {p : Option Nat} (v : Option T)
    (err : Option JSVal) (key : Option S) (h : st.currentPromise = p) :
    loadEnd st p v err key =
      ({ data := if err = none then v else st.data
         error := err
         state := if err ≠ none then RState.errored
                  else if st.resolved || key.isSome then RState.ready else RState.unresolved
         currentPromise := none
         resolved := st.resolved || key.isSome
         scheduled := st.scheduled }, v) := by
  unfold loadEnd
  rcases key with _ | k <;> simp [h, completeLoad]

lemma loadEnd_fst_scheduled {S T : Type} (st : Engine S T) (p : Option Nat) (v : Option T)
    (err : Option JSVal) (key : Option S) :
    ((loadEnd st p v err key).1).scheduled = st.scheduled := by
  by_cases h : st.currentPromise = p
  · rw [loadEnd_apply st v err key h]
  · rw [loadEnd_stale st v err key h]

lemma loadEnd_fst_resolved_mono {S T : Type} (st : Engine S T) (p : Option Nat)
    (v : Option T) (err : Option JSVal) (key : Option S) (h : st.resolved = true) :
    ((loadEnd st p v err key).1).resolved = true := by
  by_cases hp : st.currentPromise = p
  · rw [loadEnd_apply st v err key hp]
    simp [h]
  · rw [loadEnd_stale st v err key hp]
    exact h

lemma loadEnd_fst_resolved_key {S T : Type} (st : Engine S T) (p : Option Nat)
    (v : Option T) (err : Option JSVal) (k : S) (h : st.currentPromise = p) :
    ((loadEnd st p v err (some k)).1).resolved = true := by
  rw [loadEnd_apply st v err (some k) h]
  simp

lemma mutateSeq_state {S T : Type} (st : Engine S T) (vs : List (Option T)) :
    (mutateSeq st vs).state = st.state ∧ (mutateSeq st vs).error = st.error := by
  induction vs generalizing st with
  | nil => exact ⟨rfl, rfl⟩
  | cons x xs ih => simpa [mutateSeq, mutate] using ih { st with data := x }

lemma mutateSeq_append_last {S T : Type} (st : Engine S T) (vs : List (Option T))
    (v : Option T) : mutateSeq st (vs ++ [v]) = (mutate (mutateSeq st vs) v).1 := by
  simp [mutateSeq, List.foldl_append]

/-- Claim C1: a completion of the load pipeline applies exactly when the
handle it was started with still equals the tracked in-flight handle;
when it applies it clears the handle and, in one batched update, writes
the value and clears the error on success, keeps the data and writes
the error on failure, and recomputes the state as errored / ready /
unresolved; a stale completion changes nothing.  The asynchronous
resolution and rejection continuations are exactly such completions. -/
theorem loadEnd_applies_iff_current :
    ∀ {S T : Type} (st : Engine S T) (p : Option Nat) (v : Option T)
      (err : Option JSVal) (key : Option S),
    (st.currentPromise ≠ p → (loadEnd st p v err key).1 = st)
    ∧ (st.currentPromise = p →
        (loadEnd st p v err key).1 =
          { data := if err = none then v else st.data
            error := err
            state := if err ≠ none then RState.errored
                     else if st.resolved || key.isSome then RState.ready
                     else RState.unresolved
            currentPromise := none
            resolved := st.resolved || key.isSome
            scheduled := st.scheduled })
    ∧ (∀ (pp : Nat) (k : S) (ov : Option T) (e : JSVal),
        settle st pp k (Except.ok ov) = loadEnd st (some pp) ov none (some k)
        ∧ settle st pp k (Except.error e)
            = loadEnd st (some pp) none (some (castError e)) (some k))
    ∧ (∀ (r : JSVal) (f : FetchResult T), ¬(r ≠ JSVal.jsBool false ∧ st.scheduled = true) →
        (load st r none f).eng
          = (loadEnd { st with scheduled := false } st.currentPromise st.data none none).1) := by
  intro S T st p v err key
  refine ⟨fun h => ?_, fun h => ?_, fun pp k ov e => ⟨rfl, rfl⟩, fun r f h => ?_⟩
  · rw [loadEnd_stale st v err key h]
  · rw [loadEnd_apply st v err key h]
  · unfold load
    rw [if_neg h]

/-- Claim C5: calling the resource throws the current error exactly when
the state cell is `errored` and an error value is present; in every
other state it returns the data cell even if an error value is
present. -/
theorem read_throws_iff_errored :
    ∀ {S T : Type} (st : Engine S T),
    (∀ e, read st = Except.error e ↔ (st.state = RState.errored ∧ st.error = some e))
    ∧ ((st.state ≠ RState.errored ∨ st.error = none) → read st = Except.ok st.data) := by
  intro S T st
  constructor
  · intro e
    rcases he : st.error with _ | e0 <;> simp only [read, he]
    · simp
    · by_cases hs : st.state = RState.errored <;> simp [hs, eq_comm]
  · intro h
    rcases he : st.error with _ | e0 <;> simp only [read, he]
    rcases h with h | h
    · simp [h]
    · exact absurd he (by simp [h])

/-- Claim C9: the promise built on an asynchronous fetch never rejects:
its settlement continuations return the `loadEnd` value, so on
fulfillment it fulfills with the fetched value (even when the
completion is stale and discarded), on rejection it fulfills with
`undefined` while the normalized error is routed into the error cell
(when the completion is still current). -/
theorem load_promise_never_rejects :
    ∀ {S T : Type} (st : Engine S T) (p : Nat) (k : S) (v : Option T) (e : JSVal),
    (settle st p k (Except.ok v)).2 = v
    ∧ (settle st p k (Except.error e)).2 = none
    ∧ (st.currentPromise = some p →
        ((settle st p k (Except.error e)).1).error = some (castError e))
    ∧ (st.currentPromise ≠ some p →
        settle st p k (Except.ok v) = (st, v)
        ∧ settle st p k (Except.error e) = (st, none)) := by
  intro S T st p k v e
  refine ⟨loadEnd_snd st _ v none _, loadEnd_snd st _ none _ _, fun h => ?_, fun h => ?_⟩
  · show ((loadEnd st (some p) none (some (castError e)) (some k)).1).error = some (castError e)
    rw [loadEnd_apply st none (some (castError e)) (some k) h]
  · exact ⟨loadEnd_stale st v none (some k) h, loadEnd_stale st none _ (some k) h⟩

end Resource

namespace Resource

/-- Claim C4 counterexample: the claim says the wrapping error's message
is the string form of the thrown value whenever it stringifies
meaningfully, but for the thrown number `42` (string form "42") the
source produces the literal message "Unknown error": `castError`
disagrees with `claimedCastError` there. -/
theorem castError_message_cex :
    castError (JSVal.num 42) = JSVal.errObj ("Unknown error") (JSVal.num 42)
    ∧ claimedCastError (JSVal.num 42) = JSVal.errObj ("42") (JSVal.num 42)
    ∧ castError (JSVal.num 42) ≠ claimedCastError (JSVal.num 42) := by
  refine ⟨rfl, rfl, ?_⟩
  decide

/-- Claim C4 as amended: an error object passes through `castError`
unchanged; a thrown string becomes the message of the wrapping error;
every other value (numbers and booleans included) is wrapped with the
literal message "Unknown error"; in both wrapping cases the cause is
the original value; and a rejection that is still current stores the
normalized error in the error cell. -/
theorem castError_normalization :
    ∀ {S T : Type} (st : Engine S T) (p : Nat) (k : S),
    (∀ m c, castError (JSVal.errObj m c) = JSVal.errObj m c)
    ∧ (∀ s, castError (JSVal.str s) = JSVal.errObj s (JSVal.str s))
    ∧ (∀ e, e.isErr = false → e.isStr = false →
        castError e = JSVal.errObj ("Unknown error") e)
    ∧ (∀ e, st.currentPromise = some p →
        ((settle st p k (Except.error e)).1).error = some (castError e)) := by
  intro S T st p k
  refine ⟨fun m c => rfl, fun s => rfl, fun e h1 h2 => ?_, fun e h => ?_⟩
  · cases e with
    | undef => rfl
    | null => rfl
    | jsBool b => rfl
    | num n => rfl
    | str s => simp [JSVal.isStr] at h2
    | errObj m c => simp [JSVal.isErr] at h1
    | plainObj t => rfl
  · show ((loadEnd st (some p) none (some (castError e)) (some k)).1).error
        = some (castError e)
    rw [loadEnd_apply st none (some (castError e)) (some k) h]

/-- Claim C3 counterexample: `refetch(null)` forwards `null` to the
fetcher's `refetching` field (a JS default parameter substitutes only
for `undefined`), while `null ?? true` is `true`: the fetcher does not
receive `info ?? true`. -/
theorem refetch_null_info_cex :
    (refetch (initEngine none : Engine Nat Nat) JSVal.null (some 1)
        (FetchResult.sync (some 5))).fInfo = some (1, none, JSVal.null)
    ∧ jsCoalesce JSVal.null (JSVal.jsBool true) = JSVal.jsBool true
    ∧ (refetch (initEngine none : Engine Nat Nat) JSVal.null (some 1)
        (FetchResult.sync (some 5))).fInfo
      ≠ some (1, none, jsCoalesce JSVal.null (JSVal.jsBool true)) := by
  refine ⟨rfl, rfl, ?_⟩
  decide

/-- Claim C3 as amended: `refetch(info)` invokes `load(info)` with the
parameter default substituting `true` only for an undefined `info`
(`null` is passed through to the fetcher as-is), and it returns exactly
what `load` returns: undefined when deduplicated or when the source
resolved falsy, the fetched value directly for a synchronous fetcher,
and the pending promise for an asynchronous one. -/
theorem refetch_invokes_load :
    ∀ {S T : Type} (st : Engine S T) (info : JSVal) (l : Option S) (f : FetchResult T),
    refetch st info l f = load st (jsDefault info) l f
    ∧ refetch st JSVal.undef l f = load st (JSVal.jsBool true) l f
    ∧ (info ≠ JSVal.undef → refetch st info l f = load st info l f)
    ∧ (info ≠ JSVal.jsBool false → st.scheduled = true →
        (refetch st info l f).ret = LoadRet.undef ∧ (refetch st info l f).eng = st)
    ∧ (¬(jsDefault info ≠ JSVal.jsBool false ∧ st.scheduled = true) →
        (l = none → (refetch st info l f).ret = LoadRet.undef)
        ∧ (∀ k v, l = some k → f = FetchResult.sync v →
            (refetch st info l f).ret = LoadRet.val v)
        ∧ (∀ k p, l = some k → f = FetchResult.async p →
            (refetch st info l f).ret = LoadRet.prom p)) := by
  intro S T st info l f
  have hdef : info ≠ JSVal.jsBool false → jsDefault info ≠ JSVal.jsBool false := by
    intro h
    unfold jsDefault
    split
    · simp
    · exact h
  refine ⟨rfl, rfl, fun h => ?_, fun h1 h2 => ?_, fun h => ?_⟩
  · unfold refetch jsDefault
    rw [if_neg h]
  · have : refetch st info l f
        = { eng := st, ret := LoadRet.undef, fInfo := none, attach := none, micro := false } := by
      unfold refetch load
      rw [if_pos ⟨hdef h1, h2⟩]
    rw [this]
    exact ⟨rfl, rfl⟩
  · refine ⟨fun hl => ?_, fun k v hl hf => ?_, fun k p hl hf => ?_⟩
    · subst hl
      unfold refetch load
      rw [if_neg h]
    · subst hl
      subst hf
      unfold refetch load
      rw [if_neg h]
    · subst hl
      subst hf
      unfold refetch load
      rw [if_neg h]

end Resource

namespace Resource

/-- The world a resource starts in before its initial load: fresh
engine with no initial value, nothing queued, nothing pending. -/
def w0 : World Nat Nat :=
  { eng := initEngine none, micro := false, pend := [] }

/-- A reachable errored engine: the initial load ran a fetcher that
threw the string "boom" synchronously. -/
def wErrored : World Nat Nat :=
  stepW w0 (Event.loadCall (JSVal.jsBool false) (some 1)
    (FetchResult.thrown (JSVal.str "boom")))

/-- Claim C8 counterexample: in the reachable `errored` state, calling
the resource keeps throwing the stored error even directly after
`mutate(5)`, so `resource()` does not reflect the most recent mutated
value there — mutate does write the data cell, but the read path still
throws because the state cell is `errored`. -/
theorem mutate_errored_read_cex :
    Reachable wErrored
    ∧ wErrored.eng.state = RState.errored
    ∧ (mutate wErrored.eng (some 5)).1.data = some 5
    ∧ read (mutate wErrored.eng (some 5)).1
        = Except.error (JSVal.errObj ("boom") (JSVal.str ("boom")))
    ∧ read (mutate wErrored.eng (some 5)).1 ≠ Except.ok (some 5) := by
  refine ⟨Reachable.step _ (Reachable.init none), rfl, rfl, rfl, ?_⟩
  intro hc
  rw [show read (mutate wErrored.eng (some 5)).1
        = Except.error (JSVal.errObj ("boom") (JSVal.str ("boom"))) from rfl] at hc
  cases hc

/-- Claim C8 as amended: `mutate(v)` writes `v` into the data cell and
returns it, leaving the state cell, the error cell, the resolved flag,
the in-flight handle and the scheduled flag unchanged; consequently,
after any sequence of mutate calls, calling the resource returns the
most recent mutated value whenever the state is not `errored`; in the
`errored` state the resource continues to throw the stored error. -/
theorem mutate_frame_and_read :
    ∀ {S T : Type} (st : Engine S T) (v : Option T),
    ((mutate st v).1 = { st with data := v } ∧ (mutate st v).2 = v)
    ∧ ((mutate st v).1.error = st.error ∧ (mutate st v).1.state = st.state
        ∧ (mutate st v).1.resolved = st.resolved
        ∧ (mutate st v).1.currentPromise = st.currentPromise
        ∧ (mutate st v).1.scheduled = st.scheduled)
    ∧ (st.state ≠ RState.errored → read (mutate st v).1 = Except.ok v)
    ∧ (∀ vs, st.state ≠ RState.errored →
        read (mutateSeq st (vs ++ [v])) = Except.ok v)
    ∧ (∀ e, st.state = RState.errored → st.error = some e →
        read (mutate st v).1 = Except.error e) := by
  intro S T st v
  have hread : ∀ (m : Engine S T), m.state ≠ RState.errored → read m = Except.ok m.data := by
    intro m hm
    rcases he : m.error with _ | e0 <;> simp [read, he, hm]
  refine ⟨⟨rfl, rfl⟩, ⟨rfl, rfl, rfl, rfl, rfl⟩, fun h => hread _ h, fun vs h => ?_, fun e hs he => ?_⟩
  · rw [mutateSeq_append_last]
    have hstate : (mutateSeq st vs).state = st.state := (mutateSeq_state st vs).1
    have : ((mutate (mutateSeq st vs) v).1).state = st.state := hstate
    rw [hread _ (by rw [this]; exact h)]
    rfl
  · simp [read, mutate, he, hs]

/-- Claim C2 scenario, step 1: with no fetch outstanding, a refetch-style
load runs the fetcher; it returns a pending promise, so `scheduled`
becomes true and a clearing microtask is queued. -/
def c2w1 : World Nat Nat :=
  stepW w0 (Event.loadCall (JSVal.jsBool true) (some 1) (FetchResult.async 7))

/-- Claim C2 scenario, steps 2-4: the in-flight fetch resolves, then one
microtask boundary passes. -/
def c2w3 : World Nat Nat := stepW c2w1 (Event.settleCall 7 1 (Except.ok (some 42)))

def c2w4 : World Nat Nat := stepW c2w3 Event.tick

/-- Claim C2: a refetch-style `load` call (`refetchInfo !== false`) made
while the scheduled flag is true returns undefined, changes nothing and
does not invoke the fetcher; past the guard, the scheduled flag ends up
true exactly when the fetcher returned a pending promise; a microtask
boundary with a queued clearing task resets it; and in the concrete
scenario, of two back-to-back synchronous refetches the first invokes
the fetcher and the second is a no-op returning undefined, while a
refetch after the fetch resolves plus one further tick invokes the
fetcher again. -/
theorem refetch_dedup_and_scheduled :
    (∀ {S T : Type} (st : Engine S T) (r : JSVal) (l : Option S) (f : FetchResult T),
        r ≠ JSVal.jsBool false → st.scheduled = true →
        load st r l f
          = { eng := st, ret := LoadRet.undef, fInfo := none, attach := none, micro := false })
    ∧ (∀ {S T : Type} (st : Engine S T) (r : JSVal) (l : Option S) (f : FetchResult T),
        ¬(r ≠ JSVal.jsBool false ∧ st.scheduled = true) →
        ((load st r l f).eng.scheduled = true ↔ ∃ p, (load st r l f).ret = LoadRet.prom p))
    ∧ (∀ {S T : Type} [DecidableEq S] [DecidableEq T] (w : World S T),
        w.micro = true →
        (stepW w Event.tick).eng.scheduled = false ∧ (stepW w Event.tick).micro = false)
    ∧ ((load w0.eng (JSVal.jsBool true) (some 1) (FetchResult.async 7)).fInfo.isSome = true
        ∧ c2w1.eng.scheduled = true
        ∧ load c2w1.eng (JSVal.jsBool true) (some 1) (FetchResult.async 8)
            = { eng := c2w1.eng, ret := LoadRet.undef, fInfo := none
                attach := none, micro := false }
        ∧ c2w4.eng.scheduled = false
        ∧ (load c2w4.eng (JSVal.jsBool true) (some 1) (FetchResult.async 9)).fInfo.isSome
            = true) := by
  refine ⟨?_, ?_, ?_, by decide, by decide, by decide, by decide, by decide⟩
  · intro S T st r l f h1 h2
    unfold load
    rw [if_pos ⟨h1, h2⟩]
  · intro S T st r l f h
    unfold load
    rw [if_neg h]
    rcases l with _ | k
    · simp [loadEnd_fst_scheduled]
    · rcases f with v | e | p
      · simp [loadEnd_fst_scheduled]
      · by_cases he : e = JSVal.undef <;> simp [he, loadEnd_fst_scheduled]
      · simp
  · intro S T dS dT w h
    simp [stepW, h]

end Resource

namespace Resource

/-! Invariant machinery: the error cell holds a value exactly in state
`errored`, the error cell only ever holds normalized error objects, and
the resolved flag is monotone. -/

lemma completeLoad_error_iff {S T : Type} (st : Engine S T) (v : Option T)
    (err : Option JSVal) :
    ((completeLoad st v err).error.isSome = true
      ↔ (completeLoad st v err).state = RState.errored) := by
  rcases err with _ | e <;> simp [completeLoad]
  split <;> simp

lemma loadEnd_error_iff {S T : Type} (st : Engine S T) (p : Option Nat) (v : Option T)
    (err : Option JSVal) (key : Option S)
    (h : st.error.isSome = true ↔ st.state = RState.errored) :
    (((loadEnd st p v err key).1).error.isSome = true
      ↔ ((loadEnd st p v err key).1).state = RState.errored) := by
  unfold loadEnd
  split
  · exact completeLoad_error_iff _ v err
  · exact h

lemma load_error_iff {S T : Type} (st : Engine S T) (r : JSVal) (l : Option S)
    (f : FetchResult T) (h : st.error.isSome = true ↔ st.state = RState.errored) :
    ((load st r l f).eng.error.isSome = true
      ↔ (load st r l f).eng.state = RState.errored) := by
  unfold load
  split
  · exact h
  · rcases l with _ | k
    · exact loadEnd_error_iff _ _ _ _ _ h
    · rcases f with v | e | p
      · exact loadEnd_error_iff _ _ _ _ _ h
      · by_cases he : e = JSVal.undef <;> simp only [he, if_true, if_false, reduceIte]
        · exact loadEnd_error_iff _ _ _ _ _ h
        · exact loadEnd_error_iff _ _ _ _ _ h
      · simp only []
        constructor
        · intro hx
          simp at hx
        · intro hx
          by_cases hr : st.resolved = true <;> simp [hr] at hx
  
lemma stepW_settleCall_eng {S T : Type} [DecidableEq S] [DecidableEq T] (w : World S T)
    (p : Nat) (k : S) (o : Except JSVal (Option T)) :
    (stepW w (Event.settleCall p k o)).eng
      = if (p, k) ∈ w.pend then (settle w.eng p k o).1 else w.eng := by
  show (if (p, k) ∈ w.pend
      then ({ w with eng := (settle w.eng p k o).1, pend := w.pend.erase (p, k) } : World S T)
      else w).eng = _
  split <;> rfl

lemma stepW_tick_eng {S T : Type} [DecidableEq S] [DecidableEq T] (w : World S T) :
    (stepW w Event.tick).eng
      = if w.micro then { w.eng with scheduled := false } else w.eng := rfl

lemma stepW_error_iff {S T : Type} [DecidableEq S] [DecidableEq T] (w : World S T)
    (e : Event S T) (h : w.eng.error.isSome = true ↔ w.eng.state = RState.errored) :
    ((stepW w e).eng.error.isSome = true
      ↔ (stepW w e).eng.state = RState.errored) := by
  cases e with
  | loadCall r l f => exact load_error_iff _ r l f h
  | mutateCall v => exact h
  | settleCall p k o =>
      rw [stepW_settleCall_eng]
      split
      · rcases o with v | e0
        · exact loadEnd_error_iff _ _ _ _ _ h
        · exact loadEnd_error_iff _ _ _ _ _ h
      · exact h
  | tick =>
      rw [stepW_tick_eng]
      split
      · exact h
      · exact h

/-- The error cell only ever holds `Error` objects (the image of
`castError`) or nothing. -/
def errCellOk {S T : Type} (st : Engine S T) : Prop :=
  ∀ e, st.error = some e → e.isErr = true

lemma castError_isErr (e : JSVal) : (castError e).isErr = true := by
  cases e <;> rfl

lemma isErr_truthy (e : JSVal) (h : e.isErr = true) : e.truthy = true := by
  cases e <;> first
    | rfl
    | simp [JSVal.isErr] at h

lemma completeLoad_errCellOk {S T : Type} (st : Engine S T) (v : Option T)
    (err : Option JSVal) (herr : ∀ e, err = some e → e.isErr = true) :
    errCellOk (completeLoad st v err) := by
  intro e he
  exact herr e he

lemma loadEnd_errCellOk {S T : Type} (st : Engine S T) (p : Option Nat) (v : Option T)
    (err : Option JSVal) (key : Option S) (h : errCellOk st)
    (herr : ∀ e, err = some e → e.isErr = true) :
    errCellOk ((loadEnd st p v err key).1) := by
  unfold loadEnd
  split
  · exact completeLoad_errCellOk _ v err herr
  · exact h

lemma load_errCellOk {S T : Type} (st : Engine S T) (r : JSVal) (l : Option S)
    (f : FetchResult T) (h : errCellOk st) : errCellOk ((load st r l f).eng) := by
  unfold load
  split
  · exact h
  · rcases l with _ | k
    · exact loadEnd_errCellOk _ _ _ _ _ h (fun e he => Option.noConfusion he)
    · rcases f with v | e | p
      · exact loadEnd_errCellOk _ _ _ _ _ h (fun e he => Option.noConfusion he)
      · by_cases he : e = JSVal.undef <;> simp only [he, if_true, if_false, reduceIte]
        · exact loadEnd_errCellOk _ _ _ _ _ h (fun e0 he0 => Option.noConfusion he0)
        · exact loadEnd_errCellOk _ _ _ _ _ h
            (fun e0 he0 => Option.some.inj he0 ▸ castError_isErr e)
      · intro e0 he0
        exact Option.noConfusion he0

lemma stepW_errCellOk {S T : Type} [DecidableEq S] [DecidableEq T] (w : World S T)
    (e : Event S T) (h : errCellOk w.eng) : errCellOk ((stepW w e).eng) := by
  cases e with
  | loadCall r l f => exact load_errCellOk _ r l f h
  | mutateCall v => exact h
  | settleCall p k o =>
      rw [stepW_settleCall_eng]
      split
      · rcases o with e0 | v
        · exact loadEnd_errCellOk _ _ _ _ _ h
            (fun e1 he1 => Option.some.inj he1 ▸ castError_isErr e0)
        · exact loadEnd_errCellOk _ _ _ _ _ h (fun e1 he1 => Option.noConfusion he1)
      · exact h
  | tick =>
      rw [stepW_tick_eng]
      split
      · exact h
      · exact h

lemma reachable_errCellOk {S T : Type} [DecidableEq S] [DecidableEq T]
    {w : World S T} (hw : Reachable w) : errCellOk w.eng := by
  induction hw with
  | init iv => exact fun e he => Option.noConfusion he
  | step e hw ih => exact stepW_errCellOk _ e ih

lemma load_resolved_mono {S T : Type} (st : Engine S T) (r : JSVal) (l : Option S)
    (f : FetchResult T) (h : st.resolved = true) :
    ((load st r l f).eng).resolved = true := by
  unfold load
  split
  · exact h
  · rcases l with _ | k
    · exact loadEnd_fst_resolved_mono _ _ _ _ _ h
    · rcases f with v | e | p
      · exact loadEnd_fst_resolved_mono _ _ _ _ _ h
      · by_cases he : e = JSVal.undef <;> simp only [he, if_true, if_false, reduceIte]
        · exact loadEnd_fst_resolved_mono _ _ _ _ _ h
        · exact loadEnd_fst_resolved_mono _ _ _ _ _ h
      · exact h

/-- Claim C7: the resolved flag is set (to true) by any completion that
applies with a non-falsy source key — success or failure alike, since
the error argument is arbitrary — and no event of the machine (load or
refetch calls, mutate, promise settlement, microtask boundary, a falsy
source included) ever turns it back off. -/
theorem resolved_monotone :
    (∀ {S T : Type} (st : Engine S T) (p : Option Nat) (v : Option T)
        (err : Option JSVal) (k : S), st.currentPromise = p →
        ((loadEnd st p v err (some k)).1).resolved = true)
    ∧ (∀ {S T : Type} [DecidableEq S] [DecidableEq T] (w : World S T) (e : Event S T),
        w.eng.resolved = true → (stepW w e).eng.resolved = true) := by
  constructor
  · intro S T st p v err k h
    exact loadEnd_fst_resolved_key st p v err k h
  · intro S T dS dT w e h
    cases e with
    | loadCall r l f => exact load_resolved_mono _ r l f h
    | mutateCall v => exact h
    | settleCall p k o =>
        rw [stepW_settleCall_eng]
        split
        · rcases o with v | e0
          · exact loadEnd_fst_resolved_mono _ _ _ _ _ h
          · exact loadEnd_fst_resolved_mono _ _ _ _ _ h
        · exact h
    | tick =>
        rw [stepW_tick_eng]
        split
        · exact h
        · exact h

/-- Claim C10: in every reachable state of a resource, the error cell
holds a value exactly when the state cell is `errored`: construction,
every finalization, the batched start of an asynchronous load and
mutate all preserve this equivalence. -/
theorem error_iff_errored_invariant :
    ∀ {S T : Type} [DecidableEq S] [DecidableEq T] (w : World S T), Reachable w →
    (w.eng.error.isSome = true ↔ w.eng.state = RState.errored) := by
  intro S T dS dT w hw
  induction hw with
  | init iv => rcases iv with _ | x <;> simp [initEngine]
  | step e hw ih => exact stepW_error_iff _ e ih

/-- Witness for C10 at a concrete reachable errored world. -/
theorem error_iff_errored_invariant_witness :
    (wErrored.eng.error.isSome = true ↔ wErrored.eng.state = RState.errored) :=
  error_iff_errored_invariant wErrored (Reachable.step _ (Reachable.init none))

end Resource

namespace Resource

/-- Claim C6: reading `latest` behaves exactly like calling the
resource while the resolved flag is false; once resolved, it throws the
stored error exactly when an error exists and no fetch is in flight,
and otherwise returns the data cell — in particular, during an
in-flight refresh (state `refreshing`, so `loading` is true) it returns
the previous value without throwing. -/
theorem latest_spec :
    ∀ {S T : Type} [DecidableEq S] [DecidableEq T] (w : World S T), Reachable w →
    (w.eng.resolved = false → latest w.eng = read w.eng)
    ∧ (w.eng.resolved = true →
        (∀ e, w.eng.error = some e → w.eng.currentPromise = none →
            latest w.eng = Except.error e)
        ∧ ((∃ e, latest w.eng = Except.error e)
            ↔ (w.eng.error ≠ none ∧ w.eng.currentPromise = none))
        ∧ ((w.eng.error = none ∨ w.eng.currentPromise ≠ none) →
            latest w.eng = Except.ok w.eng.data)
        ∧ (w.eng.state = RState.refreshing → loading w.eng = true)) := by
  intro S T dS dT w hw
  have hok : errCellOk w.eng := reachable_errCellOk hw
  refine ⟨fun hres => ?_, fun hres => ⟨fun e he hcp => ?_, ⟨fun hex => ?_, fun hen => ?_⟩,
    fun hor => ?_, fun hst => ?_⟩⟩
  · simp [latest, hres]
  · simp [latest, hres, he, hcp, isErr_truthy e (hok e he)]
  · obtain ⟨e, hl⟩ := hex
    rcases he : w.eng.error with _ | e0
    · simp [latest, hres, he] at hl
    · rcases hcp : w.eng.currentPromise with _ | p
      · exact ⟨by simp [he], rfl⟩
      · simp [latest, hres, he, hcp] at hl
  · obtain ⟨hne, hcp⟩ := hen
    rcases he : w.eng.error with _ | e0
    · exact absurd he hne
    · exact ⟨e0, by simp [latest, hres, he, hcp, isErr_truthy e0 (hok e0 he)]⟩
  · rcases hor with he | hcp
    · simp [latest, hres, he]
    · rcases he2 : w.eng.error with _ | e0
      · simp [latest, hres, he2]
      · rcases hcp2 : w.eng.currentPromise with _ | p
        · exact absurd hcp2 hcp
        · simp [latest, hres, he2, hcp2]
  · simp [loading, hst]

/-- Witness for C6 at a concrete reachable world: after a synchronous
throw, the resource is resolved with a final error and `latest` throws
it. -/
theorem latest_spec_witness :
    latest wErrored.eng
      = Except.error (JSVal.errObj ("boom") (JSVal.str ("boom"))) :=
  ((latest_spec wErrored (Reachable.step _ (Reachable.init none))).2 rfl).1
    (JSVal.errObj ("boom") (JSVal.str ("boom"))) rfl rfl

end Resource
